import Mathlib

/-!
# Verification of the `Table` widget (tview)

Shallow embedding of the `Table` widget: the sparse cell store
(`SetCell` / `GetCell` / `Clear`), the configuration setters, the state-mutating
part of `Draw` (row-offset clamping, left column-offset clamping, visible-row
collection, and the column-visibility scan with eviction), and the keyboard
input handler.

Modelling conventions:
* Go `int` is modelled as `Int`; Go integer division (truncation toward zero)
  is `Int.tdiv`.
* Go slices are Lean `List`s; a Go out-of-range slice index (a runtime panic)
  is modelled by returning `none`, so fallible operations return `Option`.
* `len` of a Go string is its UTF-8 byte count, `String.utf8ByteSize`.
* The callback fields `selected`/`done` (function values) are modelled by
  presence flags `hasSelected`/`hasDone`; callback invocations performed by the
  input handler are returned as an explicit event list.
* The embedded `Box`, colors and the screen-painting statements of `Draw` are
  irrelevant to the retained widget state: painting only writes to the screen.
  Colors are carried as opaque `Nat` codes.
-/

namespace Tview

/-- One cell inside a `Table` (`TableCell` in the source). -/
structure TableCell where
  Text : String
  Align : Int
  MaxWidth : Int
  Color : Nat
  Selectable : Bool
deriving DecidableEq, Repr

/-- The Go zero value `TableCell{}` (what `&TableCell{}` points to). -/
def TableCell.empty : TableCell :=
  { Text := "", Align := 0, MaxWidth := 0, Color := 0, Selectable := false }

/-- Model of `tcell.ColorWhite` as an opaque color code. -/
def colorWhite : Nat := 1

/-- The `Table` widget state (fields of `struct Table`, minus the embedded
`Box` and with the two callback fields replaced by presence flags). -/
structure Table where
  borders : Bool
  bordersColor : Nat
  separator : Char
  cells : List (List TableCell)
  lastColumn : Int
  fixedRows : Int
  fixedColumns : Int
  rowsSelectable : Bool
  columnsSelectable : Bool
  selectedRow : Int
  selectedColumn : Int
  rowOffset : Int
  columnOffset : Int
  trackEnd : Bool
  visibleRows : Int
  hasSelected : Bool
  hasDone : Bool
deriving DecidableEq, Repr

/-- `NewTable()`: the zero-valued struct with the explicitly set fields. -/
def NewTable : Table :=
  { borders := false
    bordersColor := colorWhite
    separator := ' '
    cells := []
    lastColumn := -1
    fixedRows := 0
    fixedColumns := 0
    rowsSelectable := false
    columnsSelectable := false
    selectedRow := 0
    selectedColumn := 0
    rowOffset := 0
    columnOffset := 0
    trackEnd := true
    visibleRows := 0
    hasSelected := false
    hasDone := false }

/-- `Table.Clear`: drop all cells, reset `lastColumn` to the `-1` sentinel. -/
def Table.Clear (t : Table) : Table :=
  { t with cells := [], lastColumn := -1 }

/-- `Table.SetBorders`. -/
def Table.SetBorders (t : Table) (show_ : Bool) : Table :=
  { t with borders := show_ }

/-- `Table.SetBordersColor`. -/
def Table.SetBordersColor (t : Table) (color : Nat) : Table :=
  { t with bordersColor := color }

/-- `Table.SetSeparator`. -/
def Table.SetSeparator (t : Table) (separator : Char) : Table :=
  { t with separator := separator }

/-- `Table.SetFixed`. -/
def Table.SetFixed (t : Table) (rows columns : Int) : Table :=
  { t with fixedRows := rows, fixedColumns := columns }

/-- `Table.SetSelectable`. -/
def Table.SetSelectable (t : Table) (rows columns : Bool) : Table :=
  { t with rowsSelectable := rows, columnsSelectable := columns }

/-- `Table.SetSelected`: stores the arguments as given (no clamping). -/
def Table.SetSelected (t : Table) (row column : Int) : Table :=
  { t with selectedRow := row, selectedColumn := column }

/-- `Table.SetOffset`: stores the arguments as given (no clamping). -/
def Table.SetOffset (t : Table) (row column : Int) : Table :=
  { t with rowOffset := row, columnOffset := column }

/-- `Table.SetSelectedFunc`: registration modelled as a presence flag. -/
def Table.SetSelectedFunc (t : Table) (registered : Bool) : Table :=
  { t with hasSelected := registered }

/-- `Table.SetDoneFunc`: registration modelled as a presence flag. -/
def Table.SetDoneFunc (t : Table) (registered : Bool) : Table :=
  { t with hasDone := registered }

/-- Go slice read `xs[i]` with an `int` index: `none` models the out-of-range
panic (negative index or index beyond the length). -/
def listAtInt {α : Type} (xs : List α) (i : Int) : Option α :=
  if 0 ≤ i then xs[i.toNat]? else none

/-- The row-growing `append` of `SetCell`: extend the row list so that index
`row` exists; the new rows are empty (`make` produces nil slices). -/
def growCells (cells : List (List TableCell)) (row : Int) : List (List TableCell) :=
  if (cells.length : Int) ≤ row then
    cells ++ List.replicate (row - cells.length + 1).toNat []
  else cells

/-- The cell-growing `append` of `SetCell`: extend one row so that index
`column` exists; the filler cells are the zero value (the `&TableCell{}`
loop; the slot at `column` itself is overwritten right after). -/
def growRow (r : List TableCell) (column : Int) : List TableCell :=
  if (r.length : Int) ≤ column then
    r ++ List.replicate (column - r.length + 1).toNat TableCell.empty
  else r

/-- `Table.SetCell`: grow the row list up to `row`, grow row `row` up to
`column`, store `cell` at `(row, column)`, and raise `lastColumn` if
exceeded.  `none` models the panic on a negative index. -/
def Table.SetCell (t : Table) (row column : Int) (cell : TableCell) : Option Table :=
  let cells := growCells t.cells row
  match listAtInt cells row with
  | none => none
  | some r =>
    let r' := growRow r column
    if 0 ≤ column then
      some { t with
        cells := cells.set row.toNat (r'.set column.toNat cell),
        lastColumn := if t.lastColumn < column then column else t.lastColumn }
    else none

/-- `Table.GetCell`: the zero-value cell if the position is beyond the stored
data, otherwise the stored cell.  `none` models the panic that a negative
index triggers when the preceding bound checks pass. -/
def Table.GetCell (t : Table) (row column : Int) : Option TableCell :=
  if (t.cells.length : Int) ≤ row then some TableCell.empty
  else
    match listAtInt t.cells row with
    | none => none
    | some r =>
      if (r.length : Int) ≤ column then some TableCell.empty
      else listAtInt r column

/-- Apply a sequence of `SetCell` operations, stopping at the first panic. -/
def applySets (t : Table) : List (Int × Int × TableCell) → Option Table
  | [] => some t
  | (r, c, cell) :: rest =>
    match t.SetCell r c cell with
    | none => none
    | some t' => applySets t' rest

/-- The last cell written at position `(r, c)` by a sequence of set
operations, if any. -/
def lastWritten (ops : List (Int × Int × TableCell)) (r c : Int) : Option TableCell :=
  ops.foldl (fun acc o => if o.1 = r ∧ o.2.1 = c then some o.2.2 else acc) none

/-! ## Input handling -/

/-- The `tcell` keys the handler distinguishes. `KeyRune` carries the rune;
`KeyOther` stands for every other key (all of which are no-ops). -/
inductive Key where
  | KeyEnter | KeyEscape | KeyTab | KeyBacktab
  | KeyHome | KeyEnd | KeyUp | KeyDown | KeyLeft | KeyRight
  | KeyPgDn | KeyPgUp | KeyCtrlF | KeyCtrlB
  | KeyRune (r : Char)
  | KeyOther
deriving DecidableEq, Repr

/-- A callback invocation performed during input handling:
`done key` is a call of the cancellation callback, `selected r c` a call of
the activation callback. -/
inductive Event where
  | done (key : Key)
  | selected (row column : Int)
deriving DecidableEq, Repr

/-- The `home` closure of `InputHandler`. -/
def Table.home (t : Table) : Table :=
  if t.rowsSelectable then
    { t with selectedRow := 0, selectedColumn := 0 }
  else
    { t with trackEnd := false, rowOffset := 0, columnOffset := 0 }

/-- The `end` closure of `InputHandler`. -/
def Table.end_ (t : Table) : Table :=
  if t.rowsSelectable then
    { t with selectedRow := (t.cells.length : Int) - 1, selectedColumn := t.lastColumn }
  else
    { t with trackEnd := true, columnOffset := 0 }

/-- The `down` closure of `InputHandler`. -/
def Table.down (t : Table) : Table :=
  if t.rowsSelectable then
    let s := t.selectedRow + 1
    { t with selectedRow := if (t.cells.length : Int) ≤ s then (t.cells.length : Int) - 1 else s }
  else
    { t with rowOffset := t.rowOffset + 1 }

/-- The `up` closure of `InputHandler`. -/
def Table.up (t : Table) : Table :=
  if t.rowsSelectable then
    let s := t.selectedRow - 1
    { t with selectedRow := if s < 0 then 0 else s }
  else
    { t with trackEnd := false, rowOffset := t.rowOffset - 1 }

/-- The `left` closure of `InputHandler`. -/
def Table.left (t : Table) : Table :=
  if t.columnsSelectable then
    let s := t.selectedColumn - 1
    { t with selectedColumn := if s < 0 then 0 else s }
  else
    { t with columnOffset := t.columnOffset - 1 }

/-- The `right` closure of `InputHandler`. -/
def Table.right (t : Table) : Table :=
  if t.columnsSelectable then
    let s := t.selectedColumn + 1
    { t with selectedColumn := if t.lastColumn < s then t.lastColumn else s }
  else
    { t with columnOffset := t.columnOffset + 1 }

/-- The `pageDown` closure of `InputHandler`. -/
def Table.pageDown (t : Table) : Table :=
  if t.rowsSelectable then
    let s := t.selectedRow + t.visibleRows
    { t with selectedRow := if (t.cells.length : Int) ≤ s then (t.cells.length : Int) - 1 else s }
  else
    { t with rowOffset := t.rowOffset + t.visibleRows }

/-- The `pageUp` closure of `InputHandler`. -/
def Table.pageUp (t : Table) : Table :=
  if t.rowsSelectable then
    let s := t.selectedRow - t.visibleRows
    { t with selectedRow := if s < 0 then 0 else s }
  else
    { t with trackEnd := false, rowOffset := t.rowOffset - t.visibleRows }

/-- The `switch` statement of `InputHandler` (reached only when the key is not
Cancel-class). -/
def Table.dispatch (t : Table) (key : Key) : Table × List Event :=
  match key with
  | .KeyRune r =>
    if r = 'g' then (t.home, [])
    else if r = 'G' then (t.end_, [])
    else if r = 'j' then (t.down, [])
    else if r = 'k' then (t.up, [])
    else if r = 'h' then (t.left, [])
    else if r = 'l' then (t.right, [])
    else (t, [])
  | .KeyHome => (t.home, [])
  | .KeyEnd => (t.end_, [])
  | .KeyUp => (t.up, [])
  | .KeyDown => (t.down, [])
  | .KeyLeft => (t.left, [])
  | .KeyRight => (t.right, [])
  | .KeyPgDn => (t.pageDown, [])
  | .KeyCtrlF => (t.pageDown, [])
  | .KeyPgUp => (t.pageUp, [])
  | .KeyCtrlB => (t.pageUp, [])
  | .KeyEnter =>
    if (t.rowsSelectable ∨ t.columnsSelectable) ∧ t.hasSelected then
      (t, [Event.selected t.selectedRow t.selectedColumn])
    else (t, [])
  | _ => (t, [])

/-- The handler returned by `Table.InputHandler`: the Cancel-class check
(Escape / Tab / Backtab, or Enter when nothing is selectable) runs first and
returns; otherwise the key is dispatched to the movement commands. -/
def Table.handleKey (t : Table) (key : Key) : Table × List Event :=
  if (¬t.rowsSelectable ∧ ¬t.columnsSelectable ∧ key = Key.KeyEnter) ∨
      key = Key.KeyEscape ∨ key = Key.KeyTab ∨ key = Key.KeyBacktab then
    (t, if t.hasDone then [Event.done key] else [])
  else
    t.dispatch key

/-- Thread a list of keys through `handleKey`, keeping only the state. -/
def applyKeys (t : Table) : List Key → Table
  | [] => t
  | k :: rest => applyKeys (t.handleKey k).1 rest

/-! ## The state-mutating part of `Table.Draw`

`Draw` first caches the visible-row count, then clamps the row offset
(selection-driven pulls/pushes, the track-end rules, the floor at zero), then
clamps the column offset on the left and floors the selected column, then runs
the column-visibility scan whose eviction counter it stores back into
`columnOffset`.  Everything after that only paints to the screen and touches
no `Table` field, so it is not modelled. -/

/-- Lines setting `t.visibleRows` from the inner height (Go division truncates
toward zero, hence `Int.tdiv`). -/
def Table.setVisibleRows (t : Table) (height : Int) : Table :=
  { t with visibleRows := if t.borders then Int.tdiv height 2 else height }

/-- The "Clamp row offsets" block guarded by `t.rowsSelectable`: pull the
offset down when the selected row is before the window, push it up when the
selected row would pass the bottom edge. -/
def Table.clampRowSel (t : Table) (height : Int) : Table :=
  if t.rowsSelectable then
    let ta :=
      if t.fixedRows ≤ t.selectedRow ∧ t.selectedRow < t.fixedRows + t.rowOffset then
        { t with rowOffset := t.selectedRow - t.fixedRows, trackEnd := false }
      else t
    if ta.borders then
      if height ≤ 2 * (ta.selectedRow + 1 - ta.rowOffset) then
        { ta with rowOffset := ta.selectedRow + 1 - Int.tdiv height 2, trackEnd := false }
      else ta
    else
      if height ≤ ta.selectedRow + 1 - ta.rowOffset then
        { ta with rowOffset := ta.selectedRow + 1 - height, trackEnd := false }
      else ta
  else t

/-- The track-end rules: re-enable tracking when all content fits, and when
tracking pin the offset so the last row is the last visible line. -/
def Table.clampRowTrack (t : Table) (height : Int) : Table :=
  let len : Int := t.cells.length
  let t2 :=
    if t.borders then
      if 2 * (len - t.rowOffset) < height then { t with trackEnd := true } else t
    else
      if len - t.rowOffset < height then { t with trackEnd := true } else t
  if t2.trackEnd then
    { t2 with rowOffset := if t2.borders then len - Int.tdiv height 2 else len - height }
  else t2

/-- The final `if t.rowOffset < 0` floor. -/
def Table.clampRowFloor (t : Table) : Table :=
  if t.rowOffset < 0 then { t with rowOffset := 0 } else t

/-- The whole "Clamp row offsets" block of `Draw`. -/
def Table.clampRowOffset (t : Table) (height : Int) : Table :=
  ((t.clampRowSel height).clampRowTrack height).clampRowFloor

/-- The "Clamp column offset" block of `Draw`: the left-side pull toward a
selected column, the floor at zero, and the selected-column floor. -/
def Table.clampColumnLeft (t : Table) : Table :=
  let t1 :=
    if t.columnsSelectable ∧ t.fixedColumns ≤ t.selectedColumn ∧
        t.selectedColumn < t.fixedColumns + t.columnOffset then
      { t with columnOffset := t.selectedColumn - t.fixedColumns }
    else t
  let t2 := if t1.columnOffset < 0 then { t1 with columnOffset := 0 } else t1
  if t2.selectedColumn < 0 then { t2 with selectedColumn := 0 } else t2

/-- One of the two row-collection loops of `Draw`, driven by `indexRow`: add
rows from `row` while `row < stop` and the cumulated height is below the
viewport height.  The fuel is chosen as `(stop - row).toNat` by the caller,
which makes the `0` case coincide with the `¬ row < stop` exit. -/
def collectRows (height rowStep stop : Int) (row tableHeight : Int)
    (rows : List Int) : Nat → Int × List Int
  | 0 => (tableHeight, rows)
  | fuel + 1 =>
    if row < stop then
      if height ≤ tableHeight then (tableHeight, rows)
      else collectRows height rowStep stop (row + 1) (tableHeight + rowStep)
        (rows ++ [row]) fuel
    else (tableHeight, rows)

/-- The visible-row list of `Draw`: fixed rows first, then the rows from
`fixedRows + rowOffset` on, within the height budget. -/
def Table.visibleRowsOf (t : Table) (height : Int) : List Int :=
  let len : Int := t.cells.length
  let rowStep : Int := if t.borders then 2 else 1
  let stop1 : Int := if t.fixedRows ≤ len then t.fixedRows else len
  let p1 := collectRows height rowStep stop1 0 0 [] stop1.toNat
  let start2 := t.fixedRows + t.rowOffset
  (collectRows height rowStep len start2 p1.1 p1.2 (len - start2).toNat).2

/-- The local `getCell` closure of `Draw`: `some none` is Go's `nil` result
for an out-of-range position, the outer `none` is the panic a negative index
causes once the first bound check has passed. -/
def Table.drawCellAt (t : Table) (row column : Int) : Option (Option TableCell) :=
  if (t.cells.length : Int) ≤ row then some none
  else
    match listAtInt t.cells row with
    | none => none
    | some r =>
      if (r.length : Int) ≤ column then some none
      else
        match listAtInt r column with
        | none => none
        | some c => some (some c)

/-- The width a cell contributes: its text's byte length, capped by a
positive `MaxWidth`. -/
def cellWidthOf (cell : TableCell) : Int :=
  let w : Int := cell.Text.utf8ByteSize
  if 0 < cell.MaxWidth ∧ cell.MaxWidth < w then cell.MaxWidth else w

/-- The `maxWidth` fold over the visible rows for one candidate column
(`-1` start; `none` propagates a panic from `drawCellAt`). -/
def Table.maxWidthFold (t : Table) (column : Int) : List Int → Int → Option Int
  | [], mw => some mw
  | row :: rest, mw =>
    match t.drawCellAt row column with
    | none => none
    | some none => t.maxWidthFold column rest mw
    | some (some cell) =>
      let cw := cellWidthOf cell
      t.maxWidthFold column rest (if mw < cw then cw else mw)

/-- The mutable locals of the `ColumnLoop` scan. -/
structure ColState where
  skipped : Int
  lastTableWidth : Int
  tableWidth : Int
  columns : List Int
  widths : List Int
deriving DecidableEq, Repr

/-- Initial `ColumnLoop` state (`tableWidth` starts at 1 with borders). -/
def initColState (borders : Bool) : ColState :=
  { skipped := 0, lastTableWidth := 0, tableWidth := if borders then 1 else 0,
    columns := [], widths := [] }

/-- The inner `for tableWidth-1 >= width` loop of the `ColumnLoop`: either one
of the stop conditions fires (`true` = `break ColumnLoop`, `false` = proceed
to the width measurement) or the leftmost non-fixed accepted column is evicted
(appended to the eviction log).  `none` models the panic of
`widths[t.fixedColumns]` on a negative fixed-column count; the fuel
`s.columns.length + 1` supplied by the caller always suffices because every
eviction shortens `columns`. -/
def evictLoop (t : Table) (width column : Int) (s : ColState) (log : List Int) :
    Nat → Option (ColState × List Int × Bool)
  | 0 => none
  | fuel + 1 =>
    if ¬ width ≤ s.tableWidth - 1 then some (s, log, false)
    else if column < t.fixedColumns then some (s, log, true)
    else if ¬t.columnsSelectable ∧ t.columnOffset ≤ s.skipped then some (s, log, true)
    else if t.columnsSelectable ∧ t.selectedColumn - s.skipped = t.fixedColumns then
      some (s, log, true)
    else if t.columnsSelectable ∧ t.columnOffset ≤ s.skipped ∧
        ((t.selectedColumn < column ∧ s.lastTableWidth < width - 1) ∨
          t.selectedColumn < column - 1) then
      some (s, log, true)
    else if (s.columns.length : Int) ≤ t.fixedColumns then some (s, log, false)
    else
      match listAtInt s.widths t.fixedColumns, listAtInt s.columns t.fixedColumns with
      | some w, some evicted =>
        evictLoop t width column
          { skipped := s.skipped + 1
            lastTableWidth := s.lastTableWidth - (w + 1)
            tableWidth := s.tableWidth - (w + 1)
            columns := s.columns.eraseIdx t.fixedColumns.toNat
            widths := s.widths.eraseIdx t.fixedColumns.toNat }
          (log ++ [evicted]) fuel
      | _, _ => none

/-- The `ColumnLoop` of `Draw`: for each candidate column up to `lastColumn`,
run the eviction loop, measure the column's width over the visible rows, stop
on an empty column, otherwise accept the column.  Returns the final state and
the eviction log. -/
def columnLoop (t : Table) (width : Int) (rows : List Int) (column : Int)
    (s : ColState) (log : List Int) : Nat → Option (ColState × List Int)
  | 0 => if t.lastColumn < column then some (s, log) else none
  | fuel + 1 =>
    if t.lastColumn < column then some (s, log)
    else
      match evictLoop t width column s log (s.columns.length + 1) with
      | none => none
      | some (s1, log1, true) => some (s1, log1)
      | some (s1, log1, false) =>
        match t.maxWidthFold column rows (-1) with
        | none => none
        | some mw =>
          if mw < 0 then some (s1, log1)
          else
            columnLoop t width rows (column + 1)
              { s1 with
                columns := s1.columns ++ [column]
                widths := s1.widths ++ [mw]
                lastTableWidth := s1.tableWidth
                tableWidth := s1.tableWidth + mw + 1 }
              log1 fuel

/-- The table state right before the column scan of `Draw`: visible-row count
cached, row offset clamped, column offset clamped on the left. -/
def Table.drawClamped (t : Table) (height : Int) : Table :=
  ((t.setVisibleRows height).clampRowOffset height).clampColumnLeft

/-- The state effect of `Table.Draw` on a viewport of the given inner width
and height, together with the visible-row list and the eviction log of the
column scan.  `none` models a panic. -/
def Table.DrawWithLog (t : Table) (width height : Int) :
    Option (Table × List Int × List Int) :=
  let t2 := t.drawClamped height
  let rows := t2.visibleRowsOf height
  match columnLoop t2 width rows 0 (initColState t2.borders) [] (t2.lastColumn + 2).toNat with
  | none => none
  | some (s, log) => some ({ t2 with columnOffset := s.skipped }, rows, log)

/-- `Table.Draw`, keeping only the updated widget state. -/
def Table.Draw (t : Table) (width height : Int) : Option Table :=
  (t.DrawWithLog width height).map (·.1)

/-! ## Cell-store lemmas -/

/-- What a read at a non-negative position evaluates to: the stored cell, a
zero-value fallback outside the stored data. -/
def readCell (cells : List (List TableCell)) (r c : Nat) : TableCell :=
  (((cells[r]?).getD [])[c]?).getD TableCell.empty

theorem listAtInt_some_iff {α : Type} {xs : List α} {i : Int} {a : α} :
    listAtInt xs i = some a ↔ 0 ≤ i ∧ xs[i.toNat]? = some a := by
  unfold listAtInt
  split <;> simp_all

/-- `GetCell` at non-negative indices never panics and returns the stored or
zero-value cell. -/
theorem Table.GetCell_nonneg (t : Table) (row column : Int)
    (hr : 0 ≤ row) (hc : 0 ≤ column) :
    t.GetCell row column = some (readCell t.cells row.toNat column.toNat) := by
  unfold Table.GetCell readCell
  by_cases h1 : (t.cells.length : Int) ≤ row
  · have hnone : t.cells[row.toNat]? = none := List.getElem?_eq_none (by omega)
    simp [h1, hnone]
  · have hlt : row.toNat < t.cells.length := by omega
    have hsome : listAtInt t.cells row = some (t.cells[row.toNat]) := by
      unfold listAtInt
      rw [if_pos hr, List.getElem?_eq_getElem hlt]
    rw [if_neg h1, hsome]
    dsimp only [List.getElem?_eq_getElem hlt, Option.getD_some]
    by_cases h2 : ((t.cells[row.toNat]).length : Int) ≤ column
    · have hnone : (t.cells[row.toNat])[column.toNat]? = none :=
        List.getElem?_eq_none (by omega)
      simp [h2, hnone, List.getElem?_eq_getElem hlt]
    · have hlt2 : column.toNat < (t.cells[row.toNat]).length := by omega
      rw [if_neg h2]
      unfold listAtInt
      rw [if_pos hc, List.getElem?_eq_getElem hlt2]
      simp [List.getElem?_eq_getElem hlt, List.getElem?_eq_getElem hlt2]

theorem growCells_length (cells : List (List TableCell)) (row : Int) (h : 0 ≤ row) :
    (growCells cells row).length = max cells.length (row.toNat + 1) := by
  unfold growCells
  split <;> simp <;> omega

theorem growRow_length (r : List TableCell) (column : Int) (h : 0 ≤ column) :
    (growRow r column).length = max r.length (column.toNat + 1) := by
  unfold growRow
  split <;> simp <;> omega

theorem growCells_read (cells : List (List TableCell)) (row : Int) (n : Nat) :
    ((growCells cells row)[n]?).getD [] = (cells[n]?).getD [] := by
  unfold growCells
  split
  · by_cases hn : n < cells.length
    · rw [List.getElem?_append_left hn]
    · have h1 : cells[n]? = none := List.getElem?_eq_none (by omega)
      rw [List.getElem?_append_right (by omega), h1]
      rcases h2 : (List.replicate (row - (cells.length : Int) + 1).toNat
          ([] : List TableCell))[n - cells.length]? with _ | l
      · simp
      · have := List.getElem?_mem h2
        simp only [List.mem_replicate] at this
        simp [this.2]
  · rfl

theorem growRow_read (r : List TableCell) (column : Int) (n : Nat) :
    ((growRow r column)[n]?).getD TableCell.empty = (r[n]?).getD TableCell.empty := by
  unfold growRow
  split
  · by_cases hn : n < r.length
    · rw [List.getElem?_append_left hn]
    · have h1 : r[n]? = none := List.getElem?_eq_none (by omega)
      rw [List.getElem?_append_right (by omega), h1]
      rcases h2 : (List.replicate (column - (r.length : Int) + 1).toNat
          TableCell.empty)[n - r.length]? with _ | x
      · simp
      · have := List.getElem?_mem h2
        simp only [List.mem_replicate] at this
        simp [this.2]
  · rfl

/-- Successful `SetCell` characterized: the indices are non-negative and the
result is the grown-and-updated state. -/
theorem Table.setCell_inv {t : Table} {row column : Int} {cell : TableCell} {t' : Table}
    (h : t.SetCell row column cell = some t') :
    0 ≤ row ∧ 0 ≤ column ∧
    t' = { t with
      cells := (growCells t.cells row).set row.toNat
        ((growRow (((growCells t.cells row)[row.toNat]?).getD []) column).set
          column.toNat cell)
      lastColumn := if t.lastColumn < column then column else t.lastColumn } := by
  simp only [Table.SetCell] at h
  split at h
  · exact absurd h (by simp)
  · rename_i r hm
    rw [listAtInt_some_iff] at hm
    split at h
    · rename_i hc
      refine ⟨hm.1, hc, ?_⟩
      cases h
      rw [hm.2]
      rfl
    · exact absurd h (by simp)

/-- Reading back the position just written returns the written cell. -/
theorem Table.getCell_setCell_self {t t' : Table} {row column : Int} {cell : TableCell}
    (h : t.SetCell row column cell = some t') :
    t'.GetCell row column = some cell := by
  obtain ⟨hr, hc, rfl⟩ := Table.setCell_inv h
  rw [Table.GetCell_nonneg _ _ _ hr hc]
  unfold readCell
  have hlen : row.toNat < (growCells t.cells row).length := by
    rw [growCells_length _ _ hr]; omega
  rw [List.getElem?_set_self hlen]
  have hlen2 : column.toNat <
      (growRow (((growCells t.cells row)[row.toNat]?).getD []) column).length := by
    rw [growRow_length _ _ hc]; omega
  simp [List.getElem?_set_self hlen2]

/-- Writing one position does not change the value read at any other
non-negative position (a freshly materialized filler reads as the same
zero-value cell an out-of-range read produced before). -/
theorem Table.getCell_setCell_ne {t t' : Table} {row column r c : Int} {cell : TableCell}
    (h : t.SetCell row column cell = some t') (hr : 0 ≤ r) (hc : 0 ≤ c)
    (hne : ¬(r = row ∧ c = column)) :
    t'.GetCell r c = t.GetCell r c := by
  obtain ⟨hrow, hcol, rfl⟩ := Table.setCell_inv h
  rw [Table.GetCell_nonneg _ _ _ hr hc, Table.GetCell_nonneg _ _ _ hr hc]
  unfold readCell
  by_cases hrr : r = row
  · subst hrr
    have hcc : c.toNat ≠ column.toNat := by omega
    have hlen : r.toNat < (growCells t.cells r).length := by
      rw [growCells_length _ _ hr]; omega
    rw [List.getElem?_set_self hlen]
    simp only [Option.getD_some]
    rw [List.getElem?_set_ne (fun hx => hcc hx.symm), growRow_read, growCells_read]
  · have hnat : r.toNat ≠ row.toNat := by omega
    rw [List.getElem?_set_ne (fun hx => hnat (by omega))]
    have := growCells_read t.cells row r.toNat
    rw [this]

theorem lastWritten_foldl_acc (ops : List (Int × Int × TableCell)) (r c : Int)
    (acc : Option TableCell) :
    ops.foldl (fun a o => if o.1 = r ∧ o.2.1 = c then some o.2.2 else a) acc =
      match lastWritten ops r c with
      | some x => some x
      | none => acc := by
  induction ops generalizing acc with
  | nil => rfl
  | cons o rest ih =>
    unfold lastWritten
    rw [List.foldl_cons, List.foldl_cons, ih, ih]
    by_cases hm : o.1 = r ∧ o.2.1 = c
    · simp only [hm, and_self, if_pos]
      cases lastWritten rest r c <;> rfl
    · simp only [if_neg hm]
      cases lastWritten rest r c <;> rfl

theorem lastWritten_cons (o : Int × Int × TableCell) (rest : List (Int × Int × TableCell))
    (r c : Int) :
    lastWritten (o :: rest) r c =
      match lastWritten rest r c with
      | some x => some x
      | none => if o.1 = r ∧ o.2.1 = c then some o.2.2 else none := by
  unfold lastWritten
  rw [List.foldl_cons, lastWritten_foldl_acc]
  rfl

/-- Reading after a successful batch of writes: the last write at the
position wins; with no write there the read is unchanged. -/
theorem Table.getCell_applySets {ops : List (Int × Int × TableCell)} :
    ∀ {t t' : Table}, applySets t ops = some t' → ∀ {r c : Int}, 0 ≤ r → 0 ≤ c →
      t'.GetCell r c =
        match lastWritten ops r c with
        | some cl => some cl
        | none => t.GetCell r c := by
  induction ops with
  | nil =>
    intro t t' h r c hr hc
    cases h
    rfl
  | cons o rest ih =>
    intro t t' h r c hr hc
    obtain ⟨ro, co, cello⟩ := o
    unfold applySets at h
    cases hset : t.SetCell ro co cello with
    | none => rw [hset] at h; cases h
    | some tm =>
      rw [hset] at h
      have hmain := ih h hr hc
      rw [lastWritten_cons]
      cases hl : lastWritten rest r c with
      | some x => rw [hl] at hmain; exact hmain
      | none =>
        rw [hl] at hmain
        by_cases hm : r = ro ∧ c = co
        · obtain ⟨rfl, rfl⟩ := hm
          simp only [and_self, if_pos]
          rw [hmain]
          exact Table.getCell_setCell_self hset
        · have hmx : ¬((ro, co, cello).1 = r ∧ (ro, co, cello).2.1 = c) := by
            simp only []
            intro hx
            exact hm ⟨hx.1.symm, hx.2.symm⟩
          simp only [if_neg hmx]
          rw [hmain]
          exact Table.getCell_setCell_ne hset hr hc hm

theorem applySets_lastColumn {ops : List (Int × Int × TableCell)} :
    ∀ {t t' : Table}, applySets t ops = some t' →
      t'.lastColumn = ops.foldl (fun m o => max m o.2.1) t.lastColumn := by
  induction ops with
  | nil =>
    intro t t' h
    cases h
    rfl
  | cons o rest ih =>
    intro t t' h
    obtain ⟨ro, co, cello⟩ := o
    unfold applySets at h
    cases hset : t.SetCell ro co cello with
    | none => rw [hset] at h; cases h
    | some tm =>
      rw [hset] at h
      obtain ⟨_, _, rfl⟩ := Table.setCell_inv hset
      rw [ih h]
      simp only [List.foldl_cons]
      have hm : (if t.lastColumn < co then co else t.lastColumn) = max t.lastColumn co := by
        split <;> omega
      rw [hm]

/-- Sample cell used by concrete witnesses. -/
def sampleCell : TableCell :=
  { Text := "hi", Align := 0, MaxWidth := 0, Color := 0, Selectable := false }

/-- C5: after any successful sequence of cell-set operations on a table that
starts with no cells (fresh or just cleared), reading a non-negative position
returns exactly the last cell written there, or the zero-value default cell
if that position was never written. -/
theorem C5_get_returns_last_write (t t' : Table)
    (ops : List (Int × Int × TableCell)) (r c : Int)
    (h0 : t.cells = []) (h : applySets t ops = some t') (hr : 0 ≤ r) (hc : 0 ≤ c) :
    t'.GetCell r c = some ((lastWritten ops r c).getD TableCell.empty) := by
  have hmain := Table.getCell_applySets h hr hc
  cases hl : lastWritten ops r c with
  | some cl =>
    rw [hl] at hmain
    simpa using hmain
  | none =>
    rw [hl] at hmain
    rw [hmain]
    unfold Table.GetCell
    rw [h0]
    rw [if_pos (by simpa using hr)]
    rfl

/-- A concrete batch of writes for the C5/C7 witnesses: two writes to the
same position (0, 1). -/
def c5ops : List (Int × Int × TableCell) :=
  [(0, 1, TableCell.empty), (0, 1, sampleCell)]

/-- The table the C5 witness batch produces. -/
def c5res : Table :=
  { NewTable with cells := [[TableCell.empty, sampleCell]], lastColumn := 1 }

/-- Witness for C5 at a concrete input: two writes to (0, 1); the read
returns the second one. -/
theorem C5_get_returns_last_write_witness :
    NewTable.cells = [] ∧
    applySets NewTable c5ops = some c5res ∧
    c5res.GetCell 0 1 = some ((lastWritten c5ops 0 1).getD TableCell.empty) :=
  ⟨rfl, by decide,
    C5_get_returns_last_write NewTable c5res c5ops 0 1 rfl (by decide) (by decide) (by decide)⟩

/-- C6 counterexample: the claim also covers negative indices, but a negative
row index makes `GetCell` index a slice out of range (a panic, modelled as
`none`) instead of returning a default cell. -/
theorem C6_counterexample_negative_row : NewTable.GetCell (-1) 0 = none := by decide

/-- C6 (amended): for every table and every non-negative index pair,
`GetCell` returns a valid cell — the stored one, or the zero-value default
when the position was never set or is out of range; the never-fails guarantee
does not extend to negative indices. -/
theorem C6_get_total_on_nonneg (t : Table) (row column : Int)
    (hr : 0 ≤ row) (hc : 0 ≤ column) :
    t.GetCell row column = some (readCell t.cells row.toNat column.toNat) :=
  Table.GetCell_nonneg t row column hr hc

/-- Witness for C6 at a concrete input. -/
theorem C6_get_total_on_nonneg_witness :
    NewTable.GetCell 2 3 = some (readCell NewTable.cells 2 3) :=
  C6_get_total_on_nonneg NewTable 2 3 (by decide) (by decide)

/-- C7: `lastColumn` is the `-1` sentinel on creation and after `Clear`;
after `Clear` every non-negative read returns the default cell; and after any
successful batch of set operations starting from the sentinel, `lastColumn`
is the maximum column index passed to the set operations (`-1` if none). -/
theorem C7_lastColumn_max (t u : Table) (ops : List (Int × Int × TableCell))
    (t' : Table) (r c : Int) (hinit : t.lastColumn = -1)
    (h : applySets t ops = some t') (hr : 0 ≤ r) (hc : 0 ≤ c) :
    NewTable.lastColumn = -1 ∧
    u.Clear.lastColumn = -1 ∧
    u.Clear.GetCell r c = some TableCell.empty ∧
    t'.lastColumn = ops.foldl (fun m o => max m o.2.1) (-1) := by
  refine ⟨rfl, rfl, ?_, ?_⟩
  · unfold Table.Clear Table.GetCell
    rw [if_pos (by simpa using hr)]
  · rw [applySets_lastColumn h, hinit]

/-- A concrete batch for the C7 witness: one write at column 2. -/
def c7ops : List (Int × Int × TableCell) := [(0, 2, sampleCell)]

/-- The table the C7 witness batch produces. -/
def c7res : Table :=
  { NewTable with
    cells := [[TableCell.empty, TableCell.empty, sampleCell]], lastColumn := 2 }

/-- Witness for C7 at a concrete input: one write at column 2. -/
theorem C7_lastColumn_max_witness :
    NewTable.lastColumn = -1 ∧
    applySets NewTable c7ops = some c7res ∧
    (NewTable.lastColumn = -1 ∧
      NewTable.Clear.lastColumn = -1 ∧
      NewTable.Clear.GetCell 0 0 = some TableCell.empty ∧
      c7res.lastColumn = c7ops.foldl (fun m o => max m o.2.1) (-1)) :=
  ⟨rfl, by decide,
    C7_lastColumn_max NewTable NewTable c7ops c7res 0 0 rfl (by decide) (by decide)
      (by decide)⟩

/-! ## Input-handler lemmas -/

theorem Table.handleKey_down (t : Table) : t.handleKey Key.KeyDown = (t.down, []) := by
  unfold Table.handleKey
  rw [if_neg (by simp)]
  rfl

theorem Table.handleKey_pageDown (t : Table) : t.handleKey Key.KeyPgDn = (t.pageDown, []) := by
  unfold Table.handleKey
  rw [if_neg (by simp)]
  rfl

theorem Table.down_cells (t : Table) : t.down.cells = t.cells := by
  unfold Table.down
  split <;> rfl

theorem Table.down_rowsSelectable (t : Table) : t.down.rowsSelectable = t.rowsSelectable := by
  unfold Table.down
  split <;> rfl

/-- `down` with rows selectable and an in-range start: increment clamped to
the last row. -/
theorem Table.down_selectedRow (t : Table) (hsel : t.rowsSelectable = true)
    (hle : t.selectedRow ≤ (t.cells.length : Int) - 1) :
    t.down.selectedRow = min (t.selectedRow + 1) ((t.cells.length : Int) - 1) := by
  unfold Table.down
  simp only [hsel, if_true]
  split <;> simp <;> omega

/-- C8: with rows selectable and an in-range selection, `n` repeated Down
commands land on `min (selectedRow + n) (rowCount - 1)`: the selection rises
by one per command until the last row and then stays fixed there. -/
theorem C8_down_repeat_clamped (t : Table) (n : Nat)
    (hsel : t.rowsSelectable = true)
    (hle : t.selectedRow ≤ (t.cells.length : Int) - 1) :
    (applyKeys t (List.replicate n Key.KeyDown)).selectedRow =
      min (t.selectedRow + n) ((t.cells.length : Int) - 1) := by
  induction n generalizing t with
  | zero =>
    simp only [List.replicate, applyKeys]
    omega
  | succ m ih =>
    rw [List.replicate_succ]
    show (applyKeys (t.handleKey Key.KeyDown).1 (List.replicate m Key.KeyDown)).selectedRow = _
    rw [Table.handleKey_down]
    have hsel' : t.down.rowsSelectable = true := by
      rw [Table.down_rowsSelectable]; exact hsel
    have hcells := Table.down_cells t
    have hrow := Table.down_selectedRow t hsel hle
    have hle' : t.down.selectedRow ≤ ((t.down.cells.length : Int)) - 1 := by
      rw [hcells, hrow]; omega
    rw [ih t.down hsel' hle', hcells, hrow]
    push_cast
    omega

/-- A concrete 2-row selectable table for the C8 witness. -/
def c8table : Table :=
  { NewTable with cells := [[sampleCell], [sampleCell]], rowsSelectable := true }

/-- Witness for C8: three Downs on a 2-row selectable table stop at row 1. -/
theorem C8_down_repeat_clamped_witness :
    (applyKeys c8table (List.replicate 3 Key.KeyDown)).selectedRow =
      min (c8table.selectedRow + (3 : Nat)) ((c8table.cells.length : Int) - 1) :=
  C8_down_repeat_clamped c8table 3 rfl (by decide)

/-- C9: a Cancel-class input (Escape, Tab, Backtab, or Enter with nothing
selectable) with a registered cancellation callback invokes it exactly once,
with the originating key, and never invokes the activation callback. -/
theorem C9_cancel_exactly_once (t : Table) (key : Key) (r c : Int)
    (hcancel : key = Key.KeyEscape ∨ key = Key.KeyTab ∨ key = Key.KeyBacktab ∨
      (key = Key.KeyEnter ∧ ¬t.rowsSelectable ∧ ¬t.columnsSelectable))
    (hdone : t.hasDone = true) :
    (t.handleKey key).2 = [Event.done key] ∧
    Event.selected r c ∉ (t.handleKey key).2 := by
  have hcond : (¬t.rowsSelectable ∧ ¬t.columnsSelectable ∧ key = Key.KeyEnter) ∨
      key = Key.KeyEscape ∨ key = Key.KeyTab ∨ key = Key.KeyBacktab := by
    rcases hcancel with h | h | h | ⟨h1, h2, h3⟩
    · exact Or.inr (Or.inl h)
    · exact Or.inr (Or.inr (Or.inl h))
    · exact Or.inr (Or.inr (Or.inr h))
    · exact Or.inl ⟨h2, h3, h1⟩
  unfold Table.handleKey
  rw [if_pos hcond]
  simp [hdone]

/-- Witness for C9: Escape on a table with a registered done-callback. -/
theorem C9_cancel_exactly_once_witness :
    ((NewTable.SetDoneFunc true).handleKey Key.KeyEscape).2 = [Event.done Key.KeyEscape] ∧
    Event.selected 0 0 ∉ ((NewTable.SetDoneFunc true).handleKey Key.KeyEscape).2 :=
  C9_cancel_exactly_once (NewTable.SetDoneFunc true) Key.KeyEscape 0 0 (Or.inl rfl) rfl

/-- C10: with zero rows and rows selectable, Down clamps the incremented
selection to `rowCount - 1 = -1` (not to 0), and PageDown does the same, so
the selected row becomes `-1`. -/
theorem C10_down_on_empty (t : Table)
    (hsel : t.rowsSelectable = true) (hcells : t.cells = [])
    (hrow : -1 ≤ t.selectedRow) (hvis : 0 ≤ t.selectedRow + t.visibleRows) :
    (t.handleKey Key.KeyDown).1.selectedRow = -1 ∧
    (t.handleKey Key.KeyPgDn).1.selectedRow = -1 := by
  rw [Table.handleKey_down, Table.handleKey_pageDown]
  constructor
  · unfold Table.down
    simp only [hsel, if_true, hcells]
    rw [if_pos (by simp; omega)]
    simp
  · unfold Table.pageDown
    simp only [hsel, if_true, hcells]
    rw [if_pos (by simp; omega)]
    simp

/-- Witness for C10: a fresh selectable table with no rows. -/
theorem C10_down_on_empty_witness :
    (((NewTable.SetSelectable true false).handleKey Key.KeyDown).1.selectedRow = -1) ∧
    (((NewTable.SetSelectable true false).handleKey Key.KeyPgDn).1.selectedRow = -1) :=
  C10_down_on_empty (NewTable.SetSelectable true false) rfl rfl (by decide) (by decide)

theorem Table.setVisibleRows_preserves (t : Table) (h : Int) :
    (t.setVisibleRows h).cells = t.cells ∧ (t.setVisibleRows h).borders = t.borders ∧
    (t.setVisibleRows h).fixedColumns = t.fixedColumns ∧
    (t.setVisibleRows h).rowOffset = t.rowOffset ∧
    (t.setVisibleRows h).selectedRow = t.selectedRow ∧
    (t.setVisibleRows h).fixedRows = t.fixedRows ∧
    (t.setVisibleRows h).rowsSelectable = t.rowsSelectable ∧
    (t.setVisibleRows h).trackEnd = t.trackEnd :=
  ⟨rfl, rfl, rfl, rfl, rfl, rfl, rfl, rfl⟩

theorem Table.clampRowSel_preserves (t : Table) (h : Int) :
    (t.clampRowSel h).cells = t.cells ∧ (t.clampRowSel h).borders = t.borders ∧
    (t.clampRowSel h).fixedColumns = t.fixedColumns := by
  simp only [Table.clampRowSel]
  split_ifs <;> exact ⟨rfl, rfl, rfl⟩

theorem Table.clampRowTrack_preserves (t : Table) (h : Int) :
    (t.clampRowTrack h).cells = t.cells ∧ (t.clampRowTrack h).borders = t.borders ∧
    (t.clampRowTrack h).fixedColumns = t.fixedColumns := by
  simp only [Table.clampRowTrack]
  split_ifs <;> exact ⟨rfl, rfl, rfl⟩

theorem Table.clampRowFloor_preserves (t : Table) :
    t.clampRowFloor.cells = t.cells ∧ t.clampRowFloor.borders = t.borders ∧
    t.clampRowFloor.fixedColumns = t.fixedColumns ∧
    t.clampRowFloor.trackEnd = t.trackEnd := by
  simp only [Table.clampRowFloor]
  split_ifs <;> exact ⟨rfl, rfl, rfl, rfl⟩

theorem Table.clampColumnLeft_preserves (t : Table) :
    t.clampColumnLeft.cells = t.cells ∧ t.clampColumnLeft.borders = t.borders ∧
    t.clampColumnLeft.fixedColumns = t.fixedColumns ∧
    t.clampColumnLeft.rowOffset = t.rowOffset ∧
    t.clampColumnLeft.trackEnd = t.trackEnd := by
  simp only [Table.clampColumnLeft]
  split_ifs <;> exact ⟨rfl, rfl, rfl, rfl, rfl⟩

/-- After the track-end rules and the floor, the row offset lies within
`[0, max 0 (rowCount - capacity)]` where the capacity is the inner height
(half of it with borders). -/
theorem Table.clampRowTrack_floor_bound (u : Table) (h : Int) (hh : 0 ≤ h) :
    0 ≤ ((u.clampRowTrack h).clampRowFloor).rowOffset ∧
    ((u.clampRowTrack h).clampRowFloor).rowOffset ≤
      max 0 ((u.cells.length : Int) - (if u.borders then Int.tdiv h 2 else h)) := by
  have hdiv : Int.tdiv h 2 = h / 2 := Int.tdiv_eq_ediv hh (by norm_num)
  have hd2 : h / 2 ≤ h := by omega
  simp only [Table.clampRowTrack, Table.clampRowFloor, hdiv]
  split_ifs <;> simp_all <;> omega

/-- The selection-driven clamp when the selected row would pass the bottom
edge of a borderless viewport: the offset is set so the selected row is the
last visible line and track-end is disabled. -/
theorem Table.clampRowSel_push_up (t : Table) (h : Int)
    (hb : t.borders = false) (hs : t.rowsSelectable = true)
    (hnopull : t.fixedRows + t.rowOffset ≤ t.selectedRow)
    (hpush : h ≤ t.selectedRow + 1 - t.rowOffset) :
    t.clampRowSel h = { t with rowOffset := t.selectedRow + 1 - h, trackEnd := false } := by
  unfold Table.clampRowSel
  rw [if_pos hs,
    if_neg (show ¬(t.fixedRows ≤ t.selectedRow ∧
      t.selectedRow < t.fixedRows + t.rowOffset) by omega)]
  dsimp only
  rw [hb, if_neg (by decide), if_pos hpush]

/-- The whole row-offset clamp under the push-up conditions: with the
selected row inside the data, track-end stays off and the offset makes the
selected row the bottom line. -/
theorem Table.clampRowOffset_push_up (t : Table) (h : Int)
    (hb : t.borders = false) (hs : t.rowsSelectable = true) (hro : 0 ≤ t.rowOffset)
    (hnopull : t.fixedRows + t.rowOffset ≤ t.selectedRow)
    (hpush : h ≤ t.selectedRow + 1 - t.rowOffset)
    (hlt : t.selectedRow < (t.cells.length : Int)) :
    (t.clampRowOffset h).rowOffset = t.selectedRow + 1 - h ∧
    (t.clampRowOffset h).trackEnd = false := by
  unfold Table.clampRowOffset
  rw [Table.clampRowSel_push_up t h hb hs hnopull hpush]
  simp only [Table.clampRowTrack, Table.clampRowFloor]
  split_ifs <;> simp_all <;> omega

/-- The bordered sibling of `clampRowSel_push_up`: every table row takes two
screen rows, so the edge test is doubled and the capacity is `height/2`. -/
theorem Table.clampRowSel_push_up_b (t : Table) (h : Int)
    (hb : t.borders = true) (hs : t.rowsSelectable = true)
    (hnopull : t.fixedRows + t.rowOffset ≤ t.selectedRow)
    (hpush : h ≤ 2 * (t.selectedRow + 1 - t.rowOffset)) :
    t.clampRowSel h =
      { t with rowOffset := t.selectedRow + 1 - Int.tdiv h 2, trackEnd := false } := by
  unfold Table.clampRowSel
  rw [if_pos hs,
    if_neg (show ¬(t.fixedRows ≤ t.selectedRow ∧
      t.selectedRow < t.fixedRows + t.rowOffset) by omega)]
  dsimp only
  rw [hb, if_pos rfl, if_pos hpush]

/-- The bordered whole-clamp push-up: with the content still exceeding the
viewport after the push, track-end stays off and the offset becomes
`selectedRow + 1 - height/2`. -/
theorem Table.clampRowOffset_push_up_b (t : Table) (h : Int)
    (hb : t.borders = true) (hs : t.rowsSelectable = true)
    (hh : 0 ≤ h) (hro : 0 ≤ t.rowOffset)
    (hnopull : t.fixedRows + t.rowOffset ≤ t.selectedRow)
    (hpush : h ≤ 2 * (t.selectedRow + 1 - t.rowOffset))
    (hfit : h ≤ 2 * ((t.cells.length : Int) - (t.selectedRow + 1 - Int.tdiv h 2))) :
    (t.clampRowOffset h).rowOffset = t.selectedRow + 1 - Int.tdiv h 2 ∧
    (t.clampRowOffset h).trackEnd = false := by
  have hdiv : Int.tdiv h 2 = h / 2 := Int.tdiv_eq_ediv hh (by norm_num)
  unfold Table.clampRowOffset
  rw [Table.clampRowSel_push_up_b t h hb hs hnopull hpush]
  rw [hdiv] at hfit ⊢
  simp only [Table.clampRowTrack, Table.clampRowFloor, hdiv]
  split_ifs <;> simp_all <;> omega

/-- Destructuring a successful `DrawWithLog`: the column scan succeeded and
the result is the clamped state with the scan's eviction counter as column
offset, the visible rows, and the eviction log. -/
theorem Table.DrawWithLog_some {t : Table} {w h : Int} {res : Table × List Int × List Int}
    (hdraw : t.DrawWithLog w h = some res) :
    ∃ s : ColState, ∃ log : List Int,
      columnLoop (t.drawClamped h) w ((t.drawClamped h).visibleRowsOf h) 0
        (initColState (t.drawClamped h).borders) [] ((t.drawClamped h).lastColumn + 2).toNat =
        some (s, log) ∧
      res = ({ t.drawClamped h with columnOffset := s.skipped },
        (t.drawClamped h).visibleRowsOf h, log) := by
  have hdraw' : (match columnLoop (t.drawClamped h) w ((t.drawClamped h).visibleRowsOf h) 0
      (initColState (t.drawClamped h).borders) [] ((t.drawClamped h).lastColumn + 2).toNat with
    | none => none
    | some (s, log) => some (({ t.drawClamped h with columnOffset := s.skipped },
        (t.drawClamped h).visibleRowsOf h, log) : Table × List Int × List Int)) = some res :=
    hdraw
  cases hcl : columnLoop (t.drawClamped h) w ((t.drawClamped h).visibleRowsOf h) 0
      (initColState (t.drawClamped h).borders) [] ((t.drawClamped h).lastColumn + 2).toNat with
  | none => rw [hcl] at hdraw'; cases hdraw'
  | some p =>
    obtain ⟨s, log⟩ := p
    rw [hcl] at hdraw'
    exact ⟨s, log, rfl, (Option.some.inj hdraw').symm⟩

/-- The 5×3 cell batch of the C4 scenario. -/
def c4ops : List (Int × Int × TableCell) :=
  (List.range 5).flatMap (fun r => (List.range 3).map (fun c => ((r : Int), (c : Int), sampleCell)))

/-- The C4 scenario table: 5 rows × 3 columns, borderless, rows selectable. -/
def c4table : Table :=
  (applySets (NewTable.SetSelectable true false) c4ops).getD NewTable

/-- The C4 scenario table after four Down commands. -/
def c4after : Table := applyKeys c4table (List.replicate 4 Key.KeyDown)

/-- The C4 scenario paint result (viewport 20×3). -/
def c4res : Table × List Int × List Int :=
  (c4after.DrawWithLog 20 3).getD (NewTable, [], [])

/-- C4: if rows are selectable and the selected row would fall past the
bottom of the viewport (the doubled test with borders), the paint pushes the
row offset up so the selected row is the last visible row — to
`selectedRow + 1 - height` borderless, `selectedRow + 1 - height/2` bordered
— and disables track-end; in the concrete 5×3 scenario (borderless, viewport
height 3), four Downs then a paint give selectedRow = 4, rowOffset = 2, with
row 4 the last visible line. -/
theorem C4_push_selected_to_last_visible (t : Table) (w h : Int)
    (res : Table × List Int × List Int)
    (hs : t.rowsSelectable = true) (hro : 0 ≤ t.rowOffset)
    (hnopull : t.fixedRows + t.rowOffset ≤ t.selectedRow)
    (hpush : if t.borders then h ≤ 2 * (t.selectedRow + 1 - t.rowOffset)
      else h ≤ t.selectedRow + 1 - t.rowOffset)
    (hlt : t.selectedRow < (t.cells.length : Int))
    (hh : t.borders = true → 0 ≤ h)
    (hfit : t.borders = true →
      h ≤ 2 * ((t.cells.length : Int) - (t.selectedRow + 1 - Int.tdiv h 2)))
    (hdraw : t.DrawWithLog w h = some res) :
    (res.1.rowOffset = t.selectedRow + 1 - (if t.borders then Int.tdiv h 2 else h) ∧
      res.1.trackEnd = false) ∧
    (c4after.selectedRow = 4 ∧
      (c4after.DrawWithLog 20 3).map
        (fun p => (p.1.selectedRow, p.1.rowOffset, p.2.1.getLast?)) = some (4, 2, some 4)) := by
  constructor
  · obtain ⟨s, log, hcl, hres⟩ := Table.DrawWithLog_some hdraw
    have hcc := Table.clampColumnLeft_preserves ((t.setVisibleRows h).clampRowOffset h)
    by_cases hb : t.borders = true
    · rw [if_pos hb] at hpush
      have hpush' := Table.clampRowOffset_push_up_b (t.setVisibleRows h) h hb hs
        (hh hb) hro hnopull hpush (hfit hb)
      rw [hres]
      unfold Table.drawClamped
      constructor
      · show ((t.setVisibleRows h).clampRowOffset h).clampColumnLeft.rowOffset = _
        rw [hcc.2.2.2.1, hpush'.1, if_pos hb]
        rfl
      · show ((t.setVisibleRows h).clampRowOffset h).clampColumnLeft.trackEnd = _
        rw [hcc.2.2.2.2, hpush'.2]
    · rw [if_neg hb] at hpush
      have hbf : t.borders = false := by simpa using hb
      have hpush' := Table.clampRowOffset_push_up (t.setVisibleRows h) h hbf hs hro
        hnopull hpush hlt
      rw [hres]
      unfold Table.drawClamped
      constructor
      · show ((t.setVisibleRows h).clampRowOffset h).clampColumnLeft.rowOffset = _
        rw [hcc.2.2.2.1, hpush'.1, if_neg hb]
        rfl
      · show ((t.setVisibleRows h).clampRowOffset h).clampColumnLeft.trackEnd = _
        rw [hcc.2.2.2.2, hpush'.2]
  · exact ⟨by decide, by decide⟩

/-- Each eviction bumps `skipped` and appends one entry to the log, so the
difference `skipped - log length` is invariant across the eviction loop. -/
theorem evictLoop_skipped {t : Table} {w col : Int} :
    ∀ {fuel : Nat} {s : ColState} {log : List Int} {s' : ColState} {log' : List Int}
      {b : Bool},
      evictLoop t w col s log fuel = some (s', log', b) →
      s'.skipped - (log'.length : Int) = s.skipped - (log.length : Int) := by
  intro fuel
  induction fuel with
  | zero =>
    intro s log s' log' b h
    cases h
  | succ n ih =>
    intro s log s' log' b h
    unfold evictLoop at h
    split_ifs at h <;>
      try (simp only [Option.some.injEq, Prod.mk.injEq] at h
           obtain ⟨rfl, rfl, rfl⟩ := h
           rfl)
    cases hw : listAtInt s.widths t.fixedColumns with
    | none =>
      rw [hw] at h
      cases hc : listAtInt s.columns t.fixedColumns with
      | none => rw [hc] at h; simp at h
      | some ev => rw [hc] at h; simp at h
    | some wv =>
      rw [hw] at h
      cases hc : listAtInt s.columns t.fixedColumns with
      | none => rw [hc] at h; simp at h
      | some ev =>
        rw [hc] at h
        have hrec := ih h
        simp only [List.length_append, List.length_cons, List.length_nil] at hrec
        push_cast at hrec ⊢
        omega

/-- The column scan preserves the `skipped - log length` difference: accepted
columns change neither. -/
theorem columnLoop_skipped {t : Table} {w : Int} {rows : List Int} :
    ∀ {fuel : Nat} {col : Int} {s : ColState} {log : List Int} {s' : ColState}
      {log' : List Int},
      columnLoop t w rows col s log fuel = some (s', log') →
      s'.skipped - (log'.length : Int) = s.skipped - (log.length : Int) := by
  intro fuel
  induction fuel with
  | zero =>
    intro col s log s' log' h
    unfold columnLoop at h
    split_ifs at h
    simp only [Option.some.injEq, Prod.mk.injEq] at h
    obtain ⟨rfl, rfl⟩ := h
    rfl
  | succ n ih =>
    intro col s log s' log' h
    unfold columnLoop at h
    split_ifs at h with hstop
    · simp only [Option.some.injEq, Prod.mk.injEq] at h
      obtain ⟨rfl, rfl⟩ := h
      rfl
    · cases hev : evictLoop t w col s log (s.columns.length + 1) with
      | none => rw [hev] at h; simp at h
      | some q =>
        rw [hev] at h
        obtain ⟨s1, log1, b1⟩ := q
        have hstep := evictLoop_skipped hev
        cases b1 with
        | true =>
          simp only [Option.some.injEq, Prod.mk.injEq] at h
          obtain ⟨rfl, rfl⟩ := h
          omega
        | false =>
          cases hmw : t.maxWidthFold col rows (-1) with
          | none => rw [hmw] at h; simp at h
          | some mw =>
            rw [hmw] at h
            dsimp only at h
            split_ifs at h
            · simp only [Option.some.injEq, Prod.mk.injEq] at h
              obtain ⟨rfl, rfl⟩ := h
              omega
            · have hrec := ih h
              simp only at hrec
              omega

/-- In a strictly increasing list whose entries are all at least `b`, the
entry at position `n` is at least `b + n`. -/
theorem pairwise_lb_get {l : List Int} {b : Int} {n : Nat} {v : Int}
    (hp : List.Pairwise (· < ·) l) (hb : ∀ x ∈ l, b ≤ x) (hv : l[n]? = some v) :
    b + n ≤ v := by
  induction l generalizing b n with
  | nil => simp at hv
  | cons a tl ih =>
    rw [List.pairwise_cons] at hp
    cases n with
    | zero =>
      rw [List.getElem?_cons_zero] at hv
      obtain rfl := Option.some.inj hv
      have := hb a (List.mem_cons_self a tl)
      simpa using this
    | succ m =>
      rw [List.getElem?_cons_succ] at hv
      have hb' : ∀ x ∈ tl, b + 1 ≤ x := by
        intro x hx
        have h1 := hp.1 x hx
        have h2 := hb a (List.mem_cons_self a tl)
        omega
      have := ih hp.2 hb' hv
      push_cast at this ⊢
      omega

/-- The eviction loop keeps the accepted columns a strictly increasing list
of non-negative indices (a subset of what it started with), and every column
it appends to the eviction log is at least the fixed-column count: the
element removed sits at list position `fixedColumns` of a strictly increasing
non-negative list. -/
theorem evictLoop_inv {t : Table} {w col : Int} :
    ∀ {fuel : Nat} {s : ColState} {log : List Int} {s' : ColState} {log' : List Int}
      {b : Bool},
      evictLoop t w col s log fuel = some (s', log', b) →
      List.Pairwise (· < ·) s.columns → (∀ x ∈ s.columns, 0 ≤ x) →
      (∀ x ∈ log, t.fixedColumns ≤ x) →
      (List.Pairwise (· < ·) s'.columns ∧ (∀ x ∈ s'.columns, 0 ≤ x) ∧
        (∀ x ∈ s'.columns, x ∈ s.columns) ∧ (∀ x ∈ log', t.fixedColumns ≤ x)) := by
  intro fuel
  induction fuel with
  | zero =>
    intro s log s' log' b h _ _ _
    cases h
  | succ n ih =>
    intro s log s' log' b h hp hn hl
    unfold evictLoop at h
    split_ifs at h <;>
      try (simp only [Option.some.injEq, Prod.mk.injEq] at h
           obtain ⟨rfl, rfl, rfl⟩ := h
           exact ⟨hp, hn, fun x hx => hx, hl⟩)
    cases hw : listAtInt s.widths t.fixedColumns with
    | none =>
      rw [hw] at h
      cases hc : listAtInt s.columns t.fixedColumns with
      | none => rw [hc] at h; simp at h
      | some ev => rw [hc] at h; simp at h
    | some wv =>
      rw [hw] at h
      cases hc : listAtInt s.columns t.fixedColumns with
      | none => rw [hc] at h; simp at h
      | some ev =>
        rw [hc] at h
        rw [listAtInt_some_iff] at hc
        have hev_ge : t.fixedColumns ≤ ev := by
          have := pairwise_lb_get hp (fun x hx => hn x hx) hc.2
          omega
        have hsubl : List.Sublist (s.columns.eraseIdx t.fixedColumns.toNat) s.columns :=
          List.eraseIdx_sublist s.columns t.fixedColumns.toNat
        have hp1 : List.Pairwise (· < ·) (s.columns.eraseIdx t.fixedColumns.toNat) :=
          hp.sublist hsubl
        have hn1 : ∀ x ∈ s.columns.eraseIdx t.fixedColumns.toNat, (0 : Int) ≤ x :=
          fun x hx => hn x (hsubl.subset hx)
        have hl1 : ∀ x ∈ log ++ [ev], t.fixedColumns ≤ x := by
          intro x hx
          rcases List.mem_append.mp hx with hx | hx
          · exact hl x hx
          · simp at hx
            rw [hx]
            exact hev_ge
        obtain ⟨hp2, hn2, hsub2, hl2⟩ := ih h hp1 hn1 hl1
        exact ⟨hp2, hn2, fun x hx => hsubl.subset (hsub2 x hx), hl2⟩

/-- Across the whole column scan, every evicted column index is at least the
fixed-column count. -/
theorem columnLoop_log_bound {t : Table} {w : Int} {rows : List Int} :
    ∀ {fuel : Nat} {col : Int} {s : ColState} {log : List Int} {s' : ColState}
      {log' : List Int},
      columnLoop t w rows col s log fuel = some (s', log') →
      0 ≤ col →
      List.Pairwise (· < ·) s.columns → (∀ x ∈ s.columns, 0 ≤ x) →
      (∀ x ∈ s.columns, x < col) → (∀ x ∈ log, t.fixedColumns ≤ x) →
      ∀ x ∈ log', t.fixedColumns ≤ x := by
  intro fuel
  induction fuel with
  | zero =>
    intro col s log s' log' h hcol hp hn hb hl
    unfold columnLoop at h
    split_ifs at h
    simp only [Option.some.injEq, Prod.mk.injEq] at h
    obtain ⟨rfl, rfl⟩ := h
    exact hl
  | succ n ih =>
    intro col s log s' log' h hcol hp hn hb hl
    unfold columnLoop at h
    split_ifs at h with hstop
    · simp only [Option.some.injEq, Prod.mk.injEq] at h
      obtain ⟨rfl, rfl⟩ := h
      exact hl
    · cases hev : evictLoop t w col s log (s.columns.length + 1) with
      | none => rw [hev] at h; simp at h
      | some q =>
        rw [hev] at h
        obtain ⟨s1, log1, b1⟩ := q
        obtain ⟨hp1, hn1, hsub1, hl1⟩ := evictLoop_inv hev hp hn hl
        cases b1 with
        | true =>
          simp only [Option.some.injEq, Prod.mk.injEq] at h
          obtain ⟨rfl, rfl⟩ := h
          exact hl1
        | false =>
          cases hmw : t.maxWidthFold col rows (-1) with
          | none => rw [hmw] at h; simp at h
          | some mw =>
            rw [hmw] at h
            dsimp only at h
            split_ifs at h
            · simp only [Option.some.injEq, Prod.mk.injEq] at h
              obtain ⟨rfl, rfl⟩ := h
              exact hl1
            · refine ih h (by omega) ?_ ?_ ?_ hl1
              · rw [List.pairwise_append]
                refine ⟨hp1, List.pairwise_singleton _ _, ?_⟩
                intro a ha y hy
                have := hb a (hsub1 a ha)
                simp at hy
                omega
              · intro x hx
                rcases List.mem_append.mp hx with hx | hx
                · exact hn1 x hx
                · simp at hx
                  omega
              · intro x hx
                rcases List.mem_append.mp hx with hx | hx
                · have := hb x (hsub1 x hx)
                  omega
                · simp at hx
                  omega

/-- The fixed-column count is untouched by the pre-scan clamping. -/
theorem Table.drawClamped_fixedColumns (t : Table) (h : Int) :
    (t.drawClamped h).fixedColumns = t.fixedColumns := by
  unfold Table.drawClamped Table.clampRowOffset
  rw [(Table.clampColumnLeft_preserves _).2.2.1,
    (Table.clampRowFloor_preserves _).2.2.1,
    (Table.clampRowTrack_preserves _ _).2.2,
    (Table.clampRowSel_preserves _ _).2.2]
  rfl

/-- C1: after a paint that completes, the row offset lies in
`[0, max 0 (rowCount - capacity)]` — capacity being the inner height, or its
half with borders — and the column offset equals exactly the number of
columns evicted during that paint's column-width scan. -/
theorem C1_offsets_after_draw (t : Table) (w h : Int)
    (res : Table × List Int × List Int) (hh : 0 ≤ h)
    (hdraw : t.DrawWithLog w h = some res) :
    0 ≤ res.1.rowOffset ∧
    res.1.rowOffset ≤
      max 0 ((t.cells.length : Int) - (if t.borders then Int.tdiv h 2 else h)) ∧
    res.1.columnOffset = (res.2.2.length : Int) := by
  obtain ⟨s, log, hcl, hres⟩ := Table.DrawWithLog_some hdraw
  have hbound := Table.clampRowTrack_floor_bound ((t.setVisibleRows h).clampRowSel h) h hh
  have hcc := Table.clampColumnLeft_preserves ((t.setVisibleRows h).clampRowOffset h)
  have hro : res.1.rowOffset =
      (((t.setVisibleRows h).clampRowSel h).clampRowTrack h).clampRowFloor.rowOffset := by
    rw [hres]
    show ((t.setVisibleRows h).clampRowOffset h).clampColumnLeft.rowOffset = _
    rw [hcc.2.2.2.1]
    rfl
  have hcells : ((t.setVisibleRows h).clampRowSel h).cells = t.cells := by
    rw [(Table.clampRowSel_preserves _ _).1]
    rfl
  have hborders : ((t.setVisibleRows h).clampRowSel h).borders = t.borders := by
    rw [(Table.clampRowSel_preserves _ _).2.1]
    rfl
  refine ⟨?_, ?_, ?_⟩
  · rw [hro]
    exact hbound.1
  · rw [hro]
    have h2 := hbound.2
    rw [hcells, hborders] at h2
    exact h2
  · have hskip := columnLoop_skipped hcl
    have hzero : s.skipped - (log.length : Int) = 0 := by
      simpa using hskip
    rw [hres]
    show s.skipped = (log.length : Int)
    omega

/-- Witness for C1: the 5×3 scenario paint (borderless, height 3). -/
theorem C1_offsets_after_draw_witness :
    0 ≤ c4res.1.rowOffset ∧
    c4res.1.rowOffset ≤
      max 0 ((c4after.cells.length : Int) -
        (if c4after.borders then Int.tdiv 3 2 else 3)) ∧
    c4res.1.columnOffset = (c4res.2.2.length : Int) :=
  C1_offsets_after_draw c4after 20 3 c4res (by decide) (by decide)

/-- C3: every column the paint's scan actually evicts has index at least the
fixed-column count, and when the candidate column is itself inside the
fixed-column region the eviction loop stops the whole scan without evicting
anything (state and log unchanged, `break ColumnLoop`). -/
theorem C3_eviction_spares_fixed (t : Table) (w h : Int)
    (res : Table × List Int × List Int) (x : Int)
    (u : Table) (wd cand : Int) (s : ColState) (lg : List Int) (fuel : Nat)
    (hdraw : t.DrawWithLog w h = some res) (hx : x ∈ res.2.2)
    (hwide : wd ≤ s.tableWidth - 1) (hfix : cand < u.fixedColumns) :
    t.fixedColumns ≤ x ∧
    evictLoop u wd cand s lg (fuel + 1) = some (s, lg, true) := by
  constructor
  · obtain ⟨s0, log, hcl, hres⟩ := Table.DrawWithLog_some hdraw
    have hlog : res.2.2 = log := by rw [hres]
    rw [hlog] at hx
    have hbound := columnLoop_log_bound hcl (by omega)
      (List.Pairwise.nil) (by simp [initColState]) (by simp [initColState]) (by simp)
    have := hbound x hx
    rw [Table.drawClamped_fixedColumns] at this
    exact this
  · unfold evictLoop
    rw [if_neg (not_not_intro hwide), if_pos hfix]

/-- The C3 witness table: one row of six wide cells, column offset 2
requested, so the 15-wide scan evicts columns 0 and 1. -/
def c3table : Table :=
  ((applySets NewTable ((List.range 6).map
    (fun c => ((0 : Int), (c : Int), { sampleCell with Text := "abcdef" })))).getD
      NewTable).SetOffset 0 2

/-- The C3 witness paint result. -/
def c3res : Table × List Int × List Int :=
  (c3table.DrawWithLog 15 5).getD (NewTable, [], [])

/-- A concrete eviction-loop state for the C3 witness's stop conjunct. -/
def c3state : ColState :=
  { skipped := 0, lastTableWidth := 0, tableWidth := 20, columns := [], widths := [] }

/-- Witness for C3: evicted column 0 of the wide table is ≥ fixedColumns = 0;
and with a fixed-column candidate the loop stops untouched. -/
theorem C3_eviction_spares_fixed_witness :
    c3table.fixedColumns ≤ 0 ∧
    evictLoop (NewTable.SetFixed 0 1) 10 0 c3state [] (5 + 1) =
      some (c3state, [], true) :=
  C3_eviction_spares_fixed c3table 15 5 c3res 0 (NewTable.SetFixed 0 1) 10 0 c3state []
    5 (by decide) (by decide) (by decide) (by decide)

/-- The bordered C4 witness table: the 5×3 table with borders on and row 4
selected. -/
def c4btable : Table :=
  (((applySets (NewTable.SetSelectable true false) c4ops).getD NewTable).SetBorders
    true).SetSelected 4 0

/-- The bordered C4 witness paint result (viewport 20×6, capacity 3). -/
def c4bres : Table × List Int × List Int :=
  (c4btable.DrawWithLog 20 6).getD (NewTable, [], [])

/-- Witness for C4: the borderless scenario table after four Downs painted on
20×3, and the bordered variant painted on 20×6. -/
theorem C4_push_selected_to_last_visible_witness :
    ((c4res.1.rowOffset =
        c4after.selectedRow + 1 - (if c4after.borders then Int.tdiv 3 2 else 3) ∧
        c4res.1.trackEnd = false) ∧
      (c4after.selectedRow = 4 ∧
        (c4after.DrawWithLog 20 3).map
          (fun p => (p.1.selectedRow, p.1.rowOffset, p.2.1.getLast?)) =
          some (4, 2, some 4))) ∧
    ((c4bres.1.rowOffset =
        c4btable.selectedRow + 1 - (if c4btable.borders then Int.tdiv 6 2 else 6) ∧
        c4bres.1.trackEnd = false) ∧
      (c4after.selectedRow = 4 ∧
        (c4after.DrawWithLog 20 3).map
          (fun p => (p.1.selectedRow, p.1.rowOffset, p.2.1.getLast?)) =
          some (4, 2, some 4))) :=
  ⟨C4_push_selected_to_last_visible c4after 20 3 c4res (by decide) (by decide)
      (by decide) (by decide) (by decide) (by decide) (by decide) (by decide),
    C4_push_selected_to_last_visible c4btable 20 6 c4bres (by decide) (by decide)
      (by decide) (by decide) (by decide) (by decide) (by decide) (by decide)⟩

end Tview
